import Mathlib

/-!
Verification of the distributed merge-and-normalize pipeline of the
mesocircuit spiking-network analysis (`analysis/analysis_spike.py`,
class `SpikeAnalysis`).

The Python source is shallowly embedded:
* machine integers (node ids, counts) are modelled as `Int`/`Nat`;
* floating-point times and rates are modelled as exact rationals `ℚ`
  (the numeric transforms in the source are a single subtraction and
  two divisions, and every claim's verdict is insensitive to rounding);
* the per-population merged file is modelled as the list of its records,
  with `numpy.savetxt`'s single `# ...` header line accounted for
  explicitly where line counts matter;
* `numpy.sort(a, order=f)` on a structured array compares field `f`
  first and, as documented by numpy, breaks ties using the remaining
  fields in dtype order; it is embedded as `List.mergeSort` with the
  corresponding lexicographic Boolean comparison (key-equal records are
  field-for-field equal, so the result is independent of the sorting
  algorithm);
* fallible pipeline steps return `Except String` / `Option`.
-/

namespace Mesocircuit

/-! ## Identifier Remapper (`SpikeAnalysis.__raw_to_processed_nodeids`) -/

/-- `first_nodeids_proc` from the source:
`1 + np.sum(num_neurons[:i])` for population `i`. -/
def first_nodeids_proc (num_neurons : List Int) (i : Nat) : Int :=
  1 + ((num_neurons.take i).sum)

/-- `nodeids_proc` from the source: per population the pair
`(first, first + num_neurons[i] - 1)` (`np.c_[first, first + n - 1]`). -/
def nodeids_proc (num_neurons : List Int) : List (Int × Int) :=
  (List.range num_neurons.length).map fun i =>
    (first_nodeids_proc num_neurons i,
     first_nodeids_proc num_neurons i + num_neurons.getD i 0 - 1)

/-- The remap step of the pipeline.  The source reads the raw node-id
table on rank 0, broadcasts it, computes the processed table from
`num_neurons` alone, and writes the processed table out.  It performs
no consistency check between the raw table and `num_neurons`, and no
statement in it can raise: the step always succeeds. -/
def raw_to_processed_nodeids (nodeids_raw : List (Int × Int))
    (num_neurons : List Int) :
    Except String (List (Int × Int) × List (Int × Int)) :=
  .ok (nodeids_raw, nodeids_proc num_neurons)

theorem nodeids_proc_length (num_neurons : List Int) :
    (nodeids_proc num_neurons).length = num_neurons.length := by
  simp [nodeids_proc]

theorem nodeids_proc_get (num_neurons : List Int) (i : Nat)
    (hi : i < num_neurons.length) :
    (nodeids_proc num_neurons).getD i (0, 0) =
      (first_nodeids_proc num_neurons i,
       first_nodeids_proc num_neurons i + num_neurons.getD i 0 - 1) := by
  simp [nodeids_proc, List.getD_eq_getElem?_getD, List.getElem?_map,
    List.getElem?_range, hi]

theorem first_nodeids_proc_succ (num_neurons : List Int) (i : Nat)
    (hi : i < num_neurons.length) :
    first_nodeids_proc num_neurons (i + 1) =
      first_nodeids_proc num_neurons i + num_neurons.getD i 0 := by
  have h : num_neurons.take (i + 1) =
      num_neurons.take i ++ [num_neurons.getD i 0] := by
    rw [List.getD_eq_getElem?_getD, List.getElem?_eq_getElem hi]
    exact List.take_succ.trans (by simp [List.getElem?_eq_getElem hi])
  simp [first_nodeids_proc, h]
  ring

theorem first_nodeids_proc_last (num_neurons : List Int) :
    first_nodeids_proc num_neurons num_neurons.length =
      1 + num_neurons.sum := by
  simp [first_nodeids_proc]

/-- C1: for every ordered sequence of population sizes, the remapper
produces `first_proc(i) = 1 + sum of sizes of populations 0..i-1` and
`last_proc(i) = first_proc(i) + size(i) - 1`; consequently the processed
ranges are contiguous and non-overlapping, population 0 starts at 1, and
the last population's `last_proc` equals the sum of all sizes; and raw
table `[[10,19],[20,29]]` with sizes `[10,10]` yields processed table
`[[1,10],[11,20]]`. -/
theorem identifier_remapper_spec (sizes : List Int) :
    (∀ i, i < sizes.length →
      (nodeids_proc sizes).getD i (0, 0) =
        (1 + (sizes.take i).sum,
         1 + (sizes.take i).sum + sizes.getD i 0 - 1)) ∧
    (∀ i, i + 1 < sizes.length →
      ((nodeids_proc sizes).getD (i + 1) (0, 0)).1 =
        ((nodeids_proc sizes).getD i (0, 0)).2 + 1 ∧
      ((nodeids_proc sizes).getD i (0, 0)).2 <
        ((nodeids_proc sizes).getD (i + 1) (0, 0)).1) ∧
    (0 < sizes.length → ((nodeids_proc sizes).getD 0 (0, 0)).1 = 1) ∧
    (0 < sizes.length →
      ((nodeids_proc sizes).getD (sizes.length - 1) (0, 0)).2 = sizes.sum) ∧
    raw_to_processed_nodeids [(10, 19), (20, 29)] [10, 10] =
      .ok ([(10, 19), (20, 29)], [(1, 10), (11, 20)]) := by
  have hget : ∀ i, i < sizes.length →
      (nodeids_proc sizes).getD i (0, 0) =
        (first_nodeids_proc sizes i,
         first_nodeids_proc sizes i + sizes.getD i 0 - 1) :=
    fun i hi => nodeids_proc_get sizes i hi
  refine ⟨?_, ?_, ?_, ?_, ?_⟩
  · intro i hi
    rw [hget i hi]
    simp [first_nodeids_proc]
  · intro i hi
    have hi₁ : i < sizes.length := Nat.lt_of_succ_lt hi
    rw [hget i hi₁, hget (i + 1) hi]
    have hsucc := first_nodeids_proc_succ sizes i hi₁
    constructor
    · simp only []
      omega
    · simp only []
      omega
  · intro h
    rw [hget 0 h]
    simp [first_nodeids_proc]
  · intro h
    have hlt : sizes.length - 1 < sizes.length := Nat.sub_lt h Nat.one_pos
    rw [hget _ hlt]
    have hsucc := first_nodeids_proc_succ sizes (sizes.length - 1) hlt
    have hn : sizes.length - 1 + 1 = sizes.length := Nat.succ_pred_eq_of_pos h
    rw [hn] at hsucc
    have hlast := first_nodeids_proc_last sizes
    simp only []
    omega
  · rfl

/-- Closed instance of C1, discharging its hypotheses at sizes
`[10, 10]` and index `0`. -/
theorem identifier_remapper_spec_witness :
    ((nodeids_proc [10, 10]).getD 1 (0, 0)).1 =
      ((nodeids_proc [10, 10]).getD 0 (0, 0)).2 + 1 :=
  ((identifier_remapper_spec [10, 10]).2.1 0 (by norm_num)).1

/-! ## File Merge Engine (`SpikeAnalysis.__merge_raw_files`)

Records are the rows of the structured arrays built with
`dtype = (nodeid : i4, time_ms : f8)` for `datatype='spike_detector'`
and `dtype = (nodeid : i4, x-position_mm : f8, y-position_mm : f8)`
for `datatype='positions'`. -/

/-- A row of a spike-detector file: `(nodeid, time_ms)`. -/
@[ext]
structure EventRecord where
  nodeid : Int
  time_ms : ℚ
deriving DecidableEq, Repr

/-- A row of a positions file: `(nodeid, x-position_mm, y-position_mm)`. -/
@[ext]
structure PositionRecord where
  nodeid : Int
  x_mm : ℚ
  y_mm : ℚ
deriving DecidableEq, Repr

/-- The two vectorized transforms applied to `comb_data` for events:
`comb_data['nodeid'] += -nodeids_raw[ipop][0] + nodeids_proc[ipop][0]`
and `comb_data['time_ms'] -= t_presim`. -/
def processEvent (first_raw first_proc : Int) (t_presim : ℚ)
    (r : EventRecord) : EventRecord :=
  { nodeid := r.nodeid - first_raw + first_proc,
    time_ms := r.time_ms - t_presim }

/-- The id transform applied to `comb_data` for positions (`positions`
has no `time_ms` field, so only the id shift applies). -/
def processPosition (first_raw first_proc : Int)
    (r : PositionRecord) : PositionRecord :=
  { r with nodeid := r.nodeid - first_raw + first_proc }

/-- `np.sort(comb_data, order='time_ms')` comparison: numpy compares
the named field first and breaks ties with the remaining dtype fields
in order, here `nodeid`. -/
def eventLE (a b : EventRecord) : Bool :=
  decide (a.time_ms < b.time_ms ∨
    (a.time_ms = b.time_ms ∧ a.nodeid ≤ b.nodeid))

/-- `np.sort(comb_data, order='nodeid')` comparison for positions:
the named field `nodeid` first, ties broken by the remaining dtype
fields `x-position_mm` then `y-position_mm`. -/
def positionLE (a b : PositionRecord) : Bool :=
  decide (a.nodeid < b.nodeid ∨
    (a.nodeid = b.nodeid ∧
      (a.x_mm < b.x_mm ∨ (a.x_mm = b.x_mm ∧ a.y_mm ≤ b.y_mm))))

/-- Merge of the spike-detector fragments of one population: the
fragment contents are concatenated in file-arrival order
(`np.append` in the glob loop), the id and time transforms are
applied, and the result is sorted. -/
def mergeEvents (first_raw first_proc : Int) (t_presim : ℚ)
    (frags : List (List EventRecord)) : List EventRecord :=
  ((frags.flatten).map (processEvent first_raw first_proc t_presim)).mergeSort
    eventLE

/-- Merge of the position fragments of one population. -/
def mergePositions (first_raw first_proc : Int)
    (frags : List (List PositionRecord)) : List PositionRecord :=
  ((frags.flatten).map (processPosition first_raw first_proc)).mergeSort
    positionLE

/-- The merge of population `ipop` as run inside the loop over
populations: the id shift reads `nodeids_raw[ipop][0]` and
`nodeids_proc[ipop][0]`; a population index outside the raw table is
an (uncaught) `IndexError`, modelled as `none`. -/
def mergePopEvents (nodeids_raw nodeids_proc : List (Int × Int))
    (ipop : Nat) (t_presim : ℚ) (frags : List (List EventRecord)) :
    Option (List EventRecord) :=
  match nodeids_raw.get? ipop, nodeids_proc.get? ipop with
  | some fr, some fp => some (mergeEvents fr.1 fp.1 t_presim frags)
  | _, _ => none

theorem eventLE_trans (a b c : EventRecord) :
    eventLE a b → eventLE b c → eventLE a c := by
  simp only [eventLE, decide_eq_true_eq]
  rintro (h₁ | ⟨h₁, h₁'⟩) (h₂ | ⟨h₂, h₂'⟩)
  · exact Or.inl (h₁.trans h₂)
  · exact Or.inl (h₂ ▸ h₁)
  · exact Or.inl (h₁ ▸ h₂)
  · exact Or.inr ⟨h₁.trans h₂, h₁'.trans h₂'⟩

theorem eventLE_total (a b : EventRecord) :
    eventLE a b || eventLE b a := by
  simp only [eventLE, Bool.or_eq_true, decide_eq_true_eq]
  rcases lt_trichotomy a.time_ms b.time_ms with h | h | h
  · exact Or.inl (Or.inl h)
  · rcases le_total a.nodeid b.nodeid with h' | h'
    · exact Or.inl (Or.inr ⟨h, h'⟩)
    · exact Or.inr (Or.inr ⟨h.symm, h'⟩)
  · exact Or.inr (Or.inl h)

theorem eventLE_antisymm (a b : EventRecord) :
    eventLE a b → eventLE b a → a = b := by
  simp only [eventLE, decide_eq_true_eq]
  rintro (h₁ | ⟨h₁, h₁'⟩) (h₂ | ⟨h₂, h₂'⟩) <;>
    first
      | exact absurd h₂ (not_lt_of_lt h₁)
      | exact absurd h₂ (not_lt_of_le (le_of_eq h₁))
      | exact absurd h₁ (not_lt_of_le (le_of_eq h₂))
      | exact EventRecord.ext (le_antisymm h₁' h₂') h₁

theorem positionLE_trans (a b c : PositionRecord) :
    positionLE a b → positionLE b c → positionLE a c := by
  simp only [positionLE, decide_eq_true_eq]
  rintro (h₁ | ⟨h₁, h₁' | ⟨h₁', h₁''⟩⟩) (h₂ | ⟨h₂, h₂' | ⟨h₂', h₂''⟩⟩) <;>
    first
      | exact Or.inl (by omega)
      | exact Or.inr ⟨h₁.trans h₂, Or.inl (h₁'.trans h₂')⟩
      | exact Or.inr ⟨h₁.trans h₂, Or.inl (h₂' ▸ h₁')⟩
      | exact Or.inr ⟨h₁.trans h₂, Or.inl (h₁' ▸ h₂')⟩
      | exact Or.inr ⟨h₁.trans h₂,
          Or.inr ⟨h₁'.trans h₂', h₁''.trans h₂''⟩⟩

theorem positionLE_total (a b : PositionRecord) :
    positionLE a b || positionLE b a := by
  simp only [positionLE, Bool.or_eq_true, decide_eq_true_eq]
  rcases lt_trichotomy a.nodeid b.nodeid with h | h | h
  · exact Or.inl (Or.inl h)
  · rcases lt_trichotomy a.x_mm b.x_mm with h' | h' | h'
    · exact Or.inl (Or.inr ⟨h, Or.inl h'⟩)
    · rcases le_total a.y_mm b.y_mm with h'' | h''
      · exact Or.inl (Or.inr ⟨h, Or.inr ⟨h', h''⟩⟩)
      · exact Or.inr (Or.inr ⟨h.symm, Or.inr ⟨h'.symm, h''⟩⟩)
    · exact Or.inr (Or.inr ⟨h.symm, Or.inl h'⟩)
  · exact Or.inr (Or.inl h)

theorem positionLE_antisymm (a b : PositionRecord) :
    positionLE a b → positionLE b a → a = b := by
  simp only [positionLE, decide_eq_true_eq]
  rintro (h₁ | ⟨h₁, h₁' | ⟨h₁', h₁''⟩⟩) (h₂ | ⟨h₂, h₂' | ⟨h₂', h₂''⟩⟩) <;>
    first
      | omega
      | exact absurd (h₂' ▸ h₁') (lt_irrefl _)
      | exact absurd (h₁' ▸ h₂') (lt_irrefl _)
      | exact absurd (h₁'.trans h₂') (lt_irrefl _)
      | exact PositionRecord.ext h₁ h₁' (le_antisymm h₁'' h₂'')

theorem mergeEvents_perm (first_raw first_proc : Int) (t_presim : ℚ)
    (frags : List (List EventRecord)) :
    (mergeEvents first_raw first_proc t_presim frags).Perm
      ((frags.flatten).map (processEvent first_raw first_proc t_presim)) :=
  List.mergeSort_perm _ _

theorem mergeEvents_sorted (first_raw first_proc : Int) (t_presim : ℚ)
    (frags : List (List EventRecord)) :
    (mergeEvents first_raw first_proc t_presim frags).Pairwise
      (fun a b => eventLE a b) :=
  List.sorted_mergeSort eventLE_trans eventLE_total _

theorem mergePositions_perm (first_raw first_proc : Int)
    (frags : List (List PositionRecord)) :
    (mergePositions first_raw first_proc frags).Perm
      ((frags.flatten).map (processPosition first_raw first_proc)) :=
  List.mergeSort_perm _ _

theorem mergePositions_sorted (first_raw first_proc : Int)
    (frags : List (List PositionRecord)) :
    (mergePositions first_raw first_proc frags).Pairwise
      (fun a b => positionLE a b) :=
  List.sorted_mergeSort positionLE_trans positionLE_total _

instance : IsAntisymm EventRecord (fun a b => eventLE a b = true) :=
  ⟨eventLE_antisymm⟩

instance : IsAntisymm PositionRecord (fun a b => positionLE a b = true) :=
  ⟨positionLE_antisymm⟩

theorem eventLE_time_le (a b : EventRecord) (h : eventLE a b) :
    a.time_ms ≤ b.time_ms := by
  simp only [eventLE, decide_eq_true_eq] at h
  rcases h with h | ⟨h, _⟩
  · exact le_of_lt h
  · exact le_of_eq h

theorem positionLE_nodeid_le (a b : PositionRecord) (h : positionLE a b) :
    a.nodeid ≤ b.nodeid := by
  simp only [positionLE, decide_eq_true_eq] at h
  rcases h with h | ⟨h, _⟩
  · exact le_of_lt h
  · exact le_of_eq h

/-- C2: for every population (given by `first_raw`, `first_proc`,
`t_presim`) and every list of fragments, the merge maps each record's
id by `new_id = raw_id - first_raw + first_proc`, subtracts the
pre-simulation duration from `time_ms` of event records, leaves the
position coordinates unchanged, and emits a sorted permutation of the
transformed concatenation of all fragments — ascending in `time_ms`
for events and in `node_id` for positions.  In particular event rows
`(15, 105.0)` and `(12, 103.2)` with `first_raw = 10`,
`first_proc = 1`, `presim = 100` merge to the rows `(3, 3.2)` then
`(6, 5)` (formatted with `%.3f` as `3.200` and `5.000`). -/
theorem merge_transform_and_sort_spec (first_raw first_proc : Int)
    (t_presim : ℚ) (frags : List (List EventRecord))
    (pfrags : List (List PositionRecord)) :
    (∀ r : EventRecord,
      processEvent first_raw first_proc t_presim r =
        ⟨r.nodeid - first_raw + first_proc, r.time_ms - t_presim⟩) ∧
    (∀ r : PositionRecord,
      processPosition first_raw first_proc r =
        ⟨r.nodeid - first_raw + first_proc, r.x_mm, r.y_mm⟩) ∧
    (mergeEvents first_raw first_proc t_presim frags).Perm
      ((frags.flatten).map (processEvent first_raw first_proc t_presim)) ∧
    (mergeEvents first_raw first_proc t_presim frags).Pairwise
      (fun a b => a.time_ms ≤ b.time_ms) ∧
    (mergePositions first_raw first_proc pfrags).Perm
      ((pfrags.flatten).map (processPosition first_raw first_proc)) ∧
    (mergePositions first_raw first_proc pfrags).Pairwise
      (fun a b => a.nodeid ≤ b.nodeid) ∧
    mergeEvents 10 1 100 [[⟨15, 105⟩, ⟨12, 103.2⟩]] =
      [⟨3, 3.2⟩, ⟨6, 5⟩] := by
  refine ⟨fun r => rfl, fun r => rfl,
    mergeEvents_perm _ _ _ _,
    (mergeEvents_sorted _ _ _ _).imp (eventLE_time_le _ _),
    mergePositions_perm _ _ _,
    (mergePositions_sorted _ _ _).imp (positionLE_nodeid_le _ _),
    ?_⟩
  have hperm := mergeEvents_perm 10 1 100 [[⟨15, 105⟩, ⟨12, 103.2⟩]]
  have hsort := mergeEvents_sorted 10 1 100 [[⟨15, 105⟩, ⟨12, 103.2⟩]]
  have htarget :
      ([⟨3, 3.2⟩, ⟨6, 5⟩] : List EventRecord).Perm
        (([[⟨15, 105⟩, ⟨12, 103.2⟩]] :
            List (List EventRecord)).flatten.map (processEvent 10 1 100)) := by
    have : (([[⟨15, 105⟩, ⟨12, 103.2⟩]] :
        List (List EventRecord)).flatten.map (processEvent 10 1 100)) =
          [⟨6, 5⟩, ⟨3, 3.2⟩] := by
      simp only [List.flatten, List.map, processEvent]
      norm_num
    rw [this]
    exact List.Perm.swap _ _ _
  refine List.eq_of_perm_of_sorted
    (r := fun a b : EventRecord => eventLE a b = true)
    (hperm.trans htarget.symm) hsort ?_
  · refine List.pairwise_cons.mpr ⟨?_, List.pairwise_singleton _ _⟩
    intro b hb
    rw [List.mem_singleton] at hb
    subst hb
    simp only [eventLE, decide_eq_true_eq]
    norm_num

/-! ## C3: configuration-consistency checking -/

/-- C3 counterexample: with raw table `[(10, 19)]` (one population) and
declared sizes `[10, 10]` (two populations) the lengths disagree, yet
the remap step does not abort: it succeeds and writes the processed
table `[(1, 10), (11, 20)]` computed from the sizes alone.  The claimed
fatal configuration-consistency error does not exist in the code. -/
theorem remap_no_consistency_check_counterexample :
    ([((10 : Int), (19 : Int))] : List (Int × Int)).length ≠
      ([10, 10] : List Int).length ∧
    raw_to_processed_nodeids [(10, 19)] [10, 10] =
      .ok ([(10, 19)], [(1, 10), (11, 20)]) :=
  ⟨by decide, rfl⟩

/-- C3 amended: the pipeline performs no consistency check between the
raw identifier table and the declared population sizes — the remap step
always succeeds, computing the processed table from the sizes alone.
A raw table that is too short only fails later, during the merge of an
excess population, when indexing `nodeids_raw[ipop]` raises an
(uncaught) `IndexError`. -/
theorem remap_never_aborts (nodeids_raw : List (Int × Int))
    (num_neurons : List Int) (t_presim : ℚ)
    (frags : List (List EventRecord)) :
    raw_to_processed_nodeids nodeids_raw num_neurons =
      .ok (nodeids_raw, nodeids_proc num_neurons) ∧
    (nodeids_raw.length < num_neurons.length →
      mergePopEvents nodeids_raw (nodeids_proc num_neurons)
        nodeids_raw.length t_presim frags = none) := by
  refine ⟨rfl, fun _ => ?_⟩
  have h : nodeids_raw.get? nodeids_raw.length = none :=
    List.get?_eq_none.mpr (le_refl _)
  simp [mergePopEvents, h]

/-- Closed instance of C3's amended theorem at the counterexample
input, discharging the length hypothesis. -/
theorem remap_never_aborts_witness :
    mergePopEvents [((10 : Int), (19 : Int))] (nodeids_proc [10, 10]) 1 0
      [] = none :=
  (remap_never_aborts [(10, 19)] [10, 10] 0 []).2 (by decide)

/-! ## Summary statistics (`SpikeAnalysis.__first_glance_on_data`) -/

/-- The merged spike file as written by `np.savetxt(..., header=...)`
has one `# nodeid\t time_ms` header line followed by one line per
record; `num_spikes = sum(1 for line in open(fn))` counts every line of
that file, the header included. -/
def mergedFileLineCount (records : List EventRecord) : Nat :=
  1 + records.length

/-- The per-population value stored into `local_rates`:
`num_spikes / self.N_X[ipop] / (self.sim_dict['t_sim'] * 1.e-3)`. -/
def population_rate (records : List EventRecord) (num_neurons : Int)
    (t_sim_ms : ℚ) : ℚ :=
  (mergedFileLineCount records : ℚ) / (num_neurons : ℚ) /
    (t_sim_ms * (1 / 1000))

/-- `block_size = int(len(self.X) / SIZE)`. -/
def block_size (N P : Nat) : Nat := N / P

/-- One iteration of the statistics loop for a rank:
`if int(ipop / block_size) == RANK: local_rates[ipop % block_size] = ...`. -/
def statsStep (bs rnk : Nat) (rate : Nat → ℚ) (acc : List ℚ)
    (ipop : Nat) : List ℚ :=
  if ipop / bs = rnk then acc.set (ipop % bs) (rate ipop) else acc

/-- The `local_rates` vector of one rank after the loop over all
populations (`local_rates = np.zeros(block_size)` then the loop);
`rate ipop` abstracts the per-population value assigned in the loop
body (`population_rate` of the population's merged file). -/
def local_rates (N P rnk : Nat) (rate : Nat → ℚ) : List ℚ :=
  (List.range N).foldl (statsStep (block_size N P) rnk rate)
    (List.replicate (block_size N P) 0)

/-- `COMM.Allgather(local_rates, rates)`: the rank-local vectors
concatenated in rank order into a vector of length
`block_size * SIZE`. -/
def allgather_rates (N P : Nat) (rate : Nat → ℚ) : List ℚ :=
  ((List.range P).map (fun r => local_rates N P r rate)).flatten

/-- The statistics phase.  When at least one population exists and
`block_size = 0` (i.e. `SIZE > len(self.X)`), the ownership test
`int(ipop / block_size)` raises `ZeroDivisionError` on the first loop
iteration; otherwise the phase returns `rates = rates[:len(self.X)]`. -/
def first_glance_rates (N P : Nat) (rate : Nat → ℚ) :
    Except String (List ℚ) :=
  if 0 < N ∧ block_size N P = 0 then
    .error "ZeroDivisionError: division by zero"
  else
    .ok ((allgather_rates N P rate).take N)

theorem statsFold_length (bs rnk : Nat) (rate : Nat → ℚ) :
    ∀ (l : List Nat) (acc : List ℚ),
      (l.foldl (statsStep bs rnk rate) acc).length = acc.length := by
  intro l
  induction l with
  | nil => intro acc; rfl
  | cons x xs ih =>
    intro acc
    rw [List.foldl_cons, ih]
    unfold statsStep
    by_cases h : x / bs = rnk
    · simp [h]
    · simp [h]

theorem statsFold_get (bs rnk : Nat) (rate : Nat → ℚ) (hbs : 0 < bs)
    (n j : Nat) (hj : j < bs) :
    ((List.range n).foldl (statsStep bs rnk rate)
        (List.replicate bs 0))[j]? =
      some (if rnk * bs + j < n then rate (rnk * bs + j) else 0) := by
  induction n with
  | zero =>
    simp [List.range_zero, List.foldl_nil,
      List.getElem?_replicate_of_lt hj]
  | succ n ih =>
    rw [List.range_succ, List.foldl_append, List.foldl_cons,
      List.foldl_nil]
    have hstep : ∀ (L : List ℚ), statsStep bs rnk rate L n =
        if n / bs = rnk then L.set (n % bs) (rate n) else L :=
      fun L => rfl
    rw [hstep]
    by_cases hn : n / bs = rnk
    · rw [if_pos hn]
      by_cases hj' : j = n % bs
      · subst hj'
        have hlen : n % bs <
            ((List.range n).foldl (statsStep bs rnk rate)
              (List.replicate bs 0)).length := by
          rw [statsFold_length, List.length_replicate]
          exact Nat.mod_lt n hbs
        rw [List.getElem?_set_self hlen]
        have hn' : rnk * bs + n % bs = n := by
          rw [Nat.mul_comm, ← hn]
          exact Nat.div_add_mod n bs
        rw [hn', if_pos (Nat.lt_succ_self n)]
      · rw [List.getElem?_set_ne (fun h => hj' h.symm), ih]
        have hne : rnk * bs + j ≠ n := by
          intro h
          apply hj'
          rw [← h, Nat.mul_comm, Nat.mul_add_mod, Nat.mod_eq_of_lt hj]
        have hiff : (rnk * bs + j < n) ↔ (rnk * bs + j < n + 1) := by
          omega
        by_cases hlt : rnk * bs + j < n
        · rw [if_pos hlt, if_pos (hiff.mp hlt)]
        · rw [if_neg hlt, if_neg (fun h => hlt (hiff.mpr h))]
    · rw [if_neg hn, ih]
      have hne : rnk * bs + j ≠ n := by
        intro h
        apply hn
        rw [← h, Nat.mul_comm, Nat.mul_add_div hbs,
          Nat.div_eq_of_lt hj, Nat.add_zero]
      have hiff : (rnk * bs + j < n) ↔ (rnk * bs + j < n + 1) := by
        omega
      by_cases hlt : rnk * bs + j < n
      · rw [if_pos hlt, if_pos (hiff.mp hlt)]
      · rw [if_neg hlt, if_neg (fun h => hlt (hiff.mpr h))]

theorem local_rates_length (N P rnk : Nat) (rate : Nat → ℚ) :
    (local_rates N P rnk rate).length = block_size N P := by
  unfold local_rates
  rw [statsFold_length, List.length_replicate]

theorem local_rates_get (N P rnk : Nat) (rate : Nat → ℚ)
    (hbs : 0 < block_size N P) (j : Nat) (hj : j < block_size N P) :
    (local_rates N P rnk rate)[j]? =
      some (if rnk * block_size N P + j < N
        then rate (rnk * block_size N P + j) else 0) :=
  statsFold_get (block_size N P) rnk rate hbs N j hj

theorem allgather_blocks_length (N P : Nat) (rate : Nat → ℚ) :
    ∀ p : Nat,
      (((List.range p).map (fun r => local_rates N P r rate)).flatten).length
        = block_size N P * p := by
  intro p
  induction p with
  | zero => rfl
  | succ p ih =>
    rw [List.range_succ, List.map_append, List.flatten_append,
      List.length_append, ih]
    simp [local_rates_length, Nat.mul_succ]

theorem allgather_blocks_get (N P : Nat) (rate : Nat → ℚ)
    (hbs : 0 < block_size N P) :
    ∀ p k : Nat, k < block_size N P * p →
      (((List.range p).map
          (fun r => local_rates N P r rate)).flatten)[k]? =
        some (if k < N then rate k else 0) := by
  intro p
  induction p with
  | zero => intro k hk; exact absurd hk (by simp)
  | succ p ih =>
    intro k hk
    rw [List.range_succ, List.map_append, List.flatten_append]
    by_cases hkp : k < block_size N P * p
    · rw [List.getElem?_append,
        if_pos (by rw [allgather_blocks_length]; exact hkp)]
      exact ih k hkp
    · have hge : block_size N P * p ≤ k := Nat.le_of_not_lt hkp
      rw [List.getElem?_append_right
        (by rw [allgather_blocks_length]; exact hge)]
      rw [allgather_blocks_length]
      simp only [List.flatten, List.map, List.append_nil]
      have hj : k - block_size N P * p < block_size N P := by
        rw [Nat.mul_succ] at hk
        omega
      rw [local_rates_get N P p rate hbs _ hj]
      have hpk : p * block_size N P + (k - block_size N P * p) = k := by
        rw [Nat.mul_comm]
        omega
      rw [hpk]

theorem allgather_rates_length (N P : Nat) (rate : Nat → ℚ) :
    (allgather_rates N P rate).length = block_size N P * P :=
  allgather_blocks_length N P rate P

theorem allgather_rates_get (N P : Nat) (rate : Nat → ℚ)
    (hbs : 0 < block_size N P) (k : Nat)
    (hk : k < block_size N P * P) :
    (allgather_rates N P rate)[k]? = some (if k < N then rate k else 0) :=
  allgather_blocks_get N P rate hbs P k hk

/-- C4 (code bug): a population with zero recorded events does yield a
merged file containing only the header line, but the source counts
every line of the file — header included — as a spike
(`num_spikes = sum(1 for line in open(fn))` on a file written with a
`# nodeid\t time_ms` header), so with `N = 10` neurons and
`t_sim = 1000` ms the computed rate is `1/10`, not the `0` that the
claim (and the intent of the variable `num_spikes`) requires. -/
theorem first_glance_rate_header_bug :
    mergeEvents 10 1 100 [] = [] ∧
    mergedFileLineCount [] = 1 ∧
    population_rate [] 10 1000 = 1 / 10 ∧
    (1 / 10 : ℚ) ≠ 0 := by
  refine ⟨by simp [mergeEvents], rfl, ?_, by norm_num⟩
  norm_num [population_rate, mergedFileLineCount]

/-- C5 counterexample: with `N = 3` populations and `P = 2` processes
the gathered-and-truncated rate vector is
`rates[:3] = [rate 0, rate 1]` — it has two entries, not one per
population: population 2 is missing. -/
theorem allgather_truncation_counterexample :
    first_glance_rates 3 2 (fun k => if k = 0 then 10 else 20) =
      .ok [10, 20] ∧
    ([(10 : ℚ), 20] : List ℚ).length ≠ 3 :=
  ⟨rfl, by decide⟩

/-- C5 amended: when `block_size = floor(N/P) > 0`, the statistics
phase succeeds and the truncated global vector is the full all-gather
result of length `block_size * P` (which equals `N` exactly when `P`
divides `N`; otherwise the trailing `N mod P` populations have no
entry), and the entry for each covered population `k` equals the rate
contributed by the rank `k / block_size` owning its block, at slot
`k mod block_size` of that rank's local vector. -/
theorem first_glance_allgather_layout (N P : Nat) (rate : Nat → ℚ)
    (hbs : 0 < block_size N P) :
    first_glance_rates N P rate = .ok (allgather_rates N P rate) ∧
    (allgather_rates N P rate).length = block_size N P * P ∧
    (N % P = 0 → (allgather_rates N P rate).length = N) ∧
    (∀ k, k < block_size N P * P →
      (allgather_rates N P rate)[k]? = some (rate k)) ∧
    (∀ k, k < block_size N P * P →
      (local_rates N P (k / block_size N P) rate)[k % block_size N P]? =
        some (rate k)) := by
  have hle : block_size N P * P ≤ N := Nat.div_mul_le_self N P
  have hcover : ∀ k, k < block_size N P * P → k < N :=
    fun k hk => Nat.lt_of_lt_of_le hk hle
  refine ⟨?_, allgather_rates_length N P rate, ?_, ?_, ?_⟩
  · unfold first_glance_rates
    have hcond : ¬(0 < N ∧ block_size N P = 0) := by
      rintro ⟨-, h2⟩
      omega
    rw [if_neg hcond, List.take_of_length_le
      (by rw [allgather_rates_length]; exact hle)]
  · intro hdvd
    rw [allgather_rates_length]
    exact Nat.div_mul_cancel (Nat.dvd_of_mod_eq_zero hdvd)
  · intro k hk
    rw [allgather_rates_get N P rate hbs k hk, if_pos (hcover k hk)]
  · intro k hk
    rw [local_rates_get N P _ rate hbs _ (Nat.mod_lt k hbs)]
    have hkey : k / block_size N P * block_size N P + k % block_size N P
        = k := by
      rw [Nat.mul_comm]
      exact Nat.div_add_mod k (block_size N P)
    rw [hkey, if_pos (hcover k hk)]

/-- Closed instance of C5's amended theorem at `N = 4`, `P = 2`,
discharging `0 < block_size`. -/
theorem first_glance_allgather_layout_witness :
    first_glance_rates 4 2 (fun k => if k = 0 then 5 else 7) =
      .ok (allgather_rates 4 2 (fun k => if k = 0 then 5 else 7)) ∧
    (allgather_rates 4 2 (fun k => if k = 0 then 5 else 7)).length =
      block_size 4 2 * 2 ∧
    (4 % 2 = 0 →
      (allgather_rates 4 2 (fun k => if k = 0 then 5 else 7)).length = 4) ∧
    (∀ k, k < block_size 4 2 * 2 →
      (allgather_rates 4 2 (fun k => if k = 0 then 5 else 7))[k]? =
        some (if k = 0 then 5 else 7)) ∧
    (∀ k, k < block_size 4 2 * 2 →
      (local_rates 4 2 (k / block_size 4 2)
          (fun k => if k = 0 then 5 else 7))[k % block_size 4 2]? =
        some (if k = 0 then 5 else 7)) :=
  first_glance_allgather_layout 4 2 (fun k => if k = 0 then 5 else 7)
    (by decide)

/-- C10 counterexample: with zero populations and one process the
process count exceeds the population count, yet the statistics phase
completes (the ownership test never executes because the loop body
never runs), so the phase does not raise for every `P > N`. -/
theorem stats_divzero_empty_counterexample :
    (0 : Nat) < 1 ∧
    first_glance_rates 0 1 (fun _ => 0) = .ok [] :=
  ⟨by decide, rfl⟩

/-- C10 amended: whenever at least one population exists and `P > N`,
`block_size = floor(N/P) = 0` and the ownership test
`int(ipop / block_size)` raises `ZeroDivisionError`, so the phase
completes only under `P ≤ N` (or, degenerately, `N = 0`, where the
loop body never executes); conversely for `1 ≤ P ≤ N` the phase
completes. -/
theorem stats_divzero_precondition (N P : Nat) (rate : Nat → ℚ) :
    (0 < N → N < P →
      first_glance_rates N P rate =
        .error "ZeroDivisionError: division by zero") ∧
    (0 < P → P ≤ N →
      first_glance_rates N P rate =
        .ok ((allgather_rates N P rate).take N)) := by
  constructor
  · intro hN hNP
    unfold first_glance_rates
    rw [if_pos ⟨hN, by unfold block_size; exact Nat.div_eq_of_lt hNP⟩]
  · intro hP hPN
    unfold first_glance_rates
    rw [if_neg]
    rintro ⟨-, hbs⟩
    have : 0 < block_size N P := Nat.div_pos hPN hP
    omega

/-- Closed instance of C10's amended theorem at `N = 1`, `P = 2`,
discharging both hypotheses of the error direction. -/
theorem stats_divzero_precondition_witness :
    first_glance_rates 1 2 (fun _ => 0) =
      .error "ZeroDivisionError: division by zero" :=
  (stats_divzero_precondition 1 2 (fun _ => 0)).1 (by decide) (by decide)

/-! ## C6–C9: merge determinism, tie-breaking, invariants, partition -/

/-- C6: the merge is a pure function of the fragment contents — no
fragment is modified — and its output is determined by the combined
record multiset alone: two runs over the same fragment set produce
identical (hence byte-identical, under the fixed `%d`/`%.3f`
formatting) output files even if the filesystem enumerates the
fragments in a different order.  Re-running the merge on unchanged
inputs is the special case of an identical record multiset. -/
theorem merge_deterministic (first_raw first_proc : Int) (t_presim : ℚ)
    (frags frags' : List (List EventRecord))
    (pfrags pfrags' : List (List PositionRecord))
    (h : frags.flatten.Perm frags'.flatten)
    (hp : pfrags.flatten.Perm pfrags'.flatten) :
    mergeEvents first_raw first_proc t_presim frags =
      mergeEvents first_raw first_proc t_presim frags' ∧
    mergePositions first_raw first_proc pfrags =
      mergePositions first_raw first_proc pfrags' := by
  constructor
  · refine List.eq_of_perm_of_sorted
      (r := fun a b : EventRecord => eventLE a b = true) ?_
      (mergeEvents_sorted _ _ _ _) (mergeEvents_sorted _ _ _ _)
    exact ((mergeEvents_perm _ _ _ _).trans
      ((h.map _).trans (mergeEvents_perm _ _ _ _).symm))
  · refine List.eq_of_perm_of_sorted
      (r := fun a b : PositionRecord => positionLE a b = true) ?_
      (mergePositions_sorted _ _ _) (mergePositions_sorted _ _ _)
    exact ((mergePositions_perm _ _ _).trans
      ((hp.map _).trans (mergePositions_perm _ _ _).symm))

/-- Closed instance of C6: the same two event fragments enumerated in
the two possible orders merge to the same output, discharging the
permutation hypotheses. -/
theorem merge_deterministic_witness :
    mergeEvents 1 1 0 [[⟨4, 2⟩], [⟨7, 1⟩]] =
      mergeEvents 1 1 0 [[⟨7, 1⟩], [⟨4, 2⟩]] ∧
    mergePositions 1 1 [[⟨4, 2, 3⟩], [⟨7, 1, 5⟩]] =
      mergePositions 1 1 [[⟨7, 1, 5⟩], [⟨4, 2, 3⟩]] :=
  merge_deterministic 1 1 0 [[⟨4, 2⟩], [⟨7, 1⟩]] [[⟨7, 1⟩], [⟨4, 2⟩]]
    [[⟨4, 2, 3⟩], [⟨7, 1, 5⟩]] [[⟨7, 1, 5⟩], [⟨4, 2, 3⟩]]
    (by decide) (by decide)

/-- C7 counterexample: the two event records `(5, 1.0)` and `(3, 1.0)`
arrive in this order from the fragment files (identity id shift,
`presim = 0`), yet the merge outputs `(3, 1.0)` before `(5, 1.0)`:
`np.sort(..., order='time_ms')` breaks the time tie by the remaining
dtype field `nodeid`, not by file-arrival order. -/
theorem merge_tie_break_counterexample :
    mergeEvents 1 1 0 [[⟨5, 1⟩, ⟨3, 1⟩]] = [⟨3, 1⟩, ⟨5, 1⟩] ∧
    ([⟨3, 1⟩, ⟨5, 1⟩] : List EventRecord) ≠ [⟨5, 1⟩, ⟨3, 1⟩] := by
  constructor
  · have hmap : (([[⟨5, 1⟩, ⟨3, 1⟩]] :
        List (List EventRecord)).flatten.map (processEvent 1 1 0)) =
          [⟨5, 1⟩, ⟨3, 1⟩] := by
      simp only [List.flatten, List.map, processEvent]
      norm_num
    refine List.eq_of_perm_of_sorted
      (r := fun a b : EventRecord => eventLE a b = true)
      ((mergeEvents_perm 1 1 0 _).trans ?_)
      (mergeEvents_sorted 1 1 0 _) (by decide)
    rw [hmap]
    exact List.Perm.swap _ _ _
  · decide

/-- C7 amended: when two records in the merged output have equal
`time_ms`, they appear in ascending `node_id` order (numpy's
documented tie-breaking by the remaining dtype fields), regardless of
file-arrival order. -/
theorem merge_tie_break_by_nodeid (first_raw first_proc : Int)
    (t_presim : ℚ) (frags : List (List EventRecord)) :
    (mergeEvents first_raw first_proc t_presim frags).Pairwise
      (fun a b => a.time_ms < b.time_ms ∨
        (a.time_ms = b.time_ms ∧ a.nodeid ≤ b.nodeid)) :=
  (mergeEvents_sorted first_raw first_proc t_presim frags).imp
    (fun h => by simpa [eventLE, decide_eq_true_eq] using h)

/-- C8: for a population whose raw and processed ranges have equal
extent (the data-model invariant
`last_proc - first_proc = last_raw - first_raw`), every fragment
record with raw id in `[first_raw, last_raw]` and — for events — raw
time at least the pre-simulation duration is transformed to a record
with `time_ms ≥ 0` and id inside `[first_proc, last_proc]`; position
records likewise stay inside the processed range. -/
theorem processed_record_invariant
    (first_raw last_raw first_proc last_proc : Int) (t_presim : ℚ)
    (r : EventRecord)
    (hsize : last_proc - first_proc = last_raw - first_raw)
    (hlo : first_raw ≤ r.nodeid) (hhi : r.nodeid ≤ last_raw)
    (ht : t_presim ≤ r.time_ms) :
    (0 ≤ (processEvent first_raw first_proc t_presim r).time_ms ∧
     first_proc ≤ (processEvent first_raw first_proc t_presim r).nodeid ∧
     (processEvent first_raw first_proc t_presim r).nodeid ≤ last_proc) ∧
    (∀ p : PositionRecord, first_raw ≤ p.nodeid → p.nodeid ≤ last_raw →
      first_proc ≤ (processPosition first_raw first_proc p).nodeid ∧
      (processPosition first_raw first_proc p).nodeid ≤ last_proc) := by
  refine ⟨⟨?_, ?_, ?_⟩, fun p hplo hphi => ⟨?_, ?_⟩⟩ <;>
    simp only [processEvent, processPosition] <;>
    [linarith; omega; omega; omega; omega]

/-- Closed instance of C8 at the Scenario-B population
(`first_raw = 10`, `last_raw = 19`, `first_proc = 1`,
`last_proc = 10`, `presim = 100`) and record `(15, 105)`. -/
theorem processed_record_invariant_witness :
    (0 ≤ (processEvent 10 1 100 ⟨15, 105⟩).time_ms ∧
     1 ≤ (processEvent 10 1 100 ⟨15, 105⟩).nodeid ∧
     (processEvent 10 1 100 ⟨15, 105⟩).nodeid ≤ 10) ∧
    (∀ p : PositionRecord, 10 ≤ p.nodeid → p.nodeid ≤ 19 →
      1 ≤ (processPosition 10 1 p).nodeid ∧
      (processPosition 10 1 p).nodeid ≤ 10) :=
  processed_record_invariant 10 19 1 10 100 ⟨15, 105⟩ (by decide)
    (by decide) (by decide) (by decide)

/-! ## Work Partitioner -/

/-- The merge phase's ownership test, from
`if ipop % SIZE == RANK:`. -/
def owns_merge_item (P rnk i : Nat) : Bool := i % P == rnk

/-- C9: for every process count `P ≥ 1` and item count `N`, the
round-robin rule assigns each item `i < N` to exactly one rank below
`P`, so the union of all ranks' assignments is the full item set. -/
theorem round_robin_partition (P N : Nat) (hP : 1 ≤ P) :
    (∀ i, i < N →
      ∃! rnk, rnk < P ∧ owns_merge_item P rnk i = true) ∧
    (∀ i, i < N → ∃ rnk, rnk < P ∧ owns_merge_item P rnk i = true) := by
  constructor
  · intro i hi
    refine ⟨i % P, ⟨Nat.mod_lt i hP, by simp [owns_merge_item]⟩, ?_⟩
    intro y hy
    have h2 : i % P = y := by simpa [owns_merge_item] using hy.2
    exact h2.symm
  · intro i hi
    exact ⟨i % P, Nat.mod_lt i hP, by simp [owns_merge_item]⟩

/-- Closed instance of C9 at `P = 3`, `N = 7`, item `5`. -/
theorem round_robin_partition_witness :
    ∃! rnk, rnk < 3 ∧ owns_merge_item 3 rnk 5 = true :=
  (round_robin_partition 3 7 (by decide)).1 5 (by decide)

end Mesocircuit
